import Mathlib

/-!
# Verification of the fc2-live-dl live-capture engine

A shallow embedding of `src/fc2_live_dl.py` (fc2-live-dl v1.1.5):

* `HLSDownloader` — playlist parsing (`_get_fragment_urls`), the playlist
  poller (`_fill_queue`), the fetch workers (`_download_worker`) and the
  in-order consumer (`_read` / `read`);
* `FC2WebSocket` — the HLS-information retry loop (`get_hls_information`),
  the heartbeat logic (`_try_heartbeat`) and outbound message ids
  (`_send_message`);
* `FC2LiveDL` — playlist selection (`_get_mode`, `_merge_playlists`,
  `_sort_playlists`, `_get_playlist_or_best`, `_get_hls_url`).

Byte strings are modelled as `List Nat`, wall-clock times as `ℚ`, and the
`asyncio.PriorityQueue` of fragment data as a list kept sorted by sequence
number (its head is the element a `get` returns).  Fallible paths (HTTP 403,
`IndexError`, raised exceptions) are modelled with `Option` / explicit result
constructors.
-/

namespace FC2

/-- Byte payload of a fragment.  `[]` is the empty-bytes substitute. -/
abbrev Bytes := List Nat

/-! ## `HLSDownloader._get_fragment_urls` (fc2_live_dl.py lines 114–119) -/

/-- Result of one playlist fetch: HTTP 403 raises `StreamFinished`, any other
response yields the parsed fragment-URL list. -/
inductive FragResult where
  | streamFinished
  | urls (l : List String)
deriving DecidableEq

/-- `HLSDownloader._get_fragment_urls`: on status 403 raise `StreamFinished`;
otherwise `[line.strip() for line in playlist.split('\n')
            if len(line) > 0 and not line[0] == '#']`. -/
def getFragmentUrls (status : Nat) (body : String) : FragResult :=
  if status = 403 then .streamFinished
  else .urls (((body.splitOn "\n").filter
      (fun line => decide (0 < line.length) && !(line.front == '#'))).map String.trim)

/-- Written from the spec's words: "the text body is split by newline; lines
that are empty or begin with `#` are discarded; the remainder
(stripped of surrounding whitespace) is the ordered list of fragment URLs". -/
def specFragmentUrls (body : String) : List String :=
  (body.splitOn "\n").filterMap fun line =>
    if line = "" ∨ line.front = '#' then none else some line.trim

/-! ## `HLSDownloader._download_worker` (fc2_live_dl.py lines 154–171) -/

/-- Outcome of the `session.get(url)` a fetch worker performs: either an HTTP
response (status and body), or an exception (transport error). -/
inductive FetchOutcome where
  | response (status : Nat) (body : Bytes)
  | transportError
deriving DecidableEq

/-- What one iteration of the worker loop enqueues: entries pushed back into
`_frag_urls` (sequence, url, tries) and entries pushed into `_frag_data`
(sequence, bytes). -/
structure WorkerEffect where
  urlQueuePut : List (Nat × String × Nat)
  dataQueuePut : List (Nat × Bytes)
deriving DecidableEq

/-- One iteration of `HLSDownloader._download_worker` for the dequeued
fragment `(i, (url, tries))`:
* an exception is logged and nothing is enqueued;
* `resp.status > 299` with `tries < 5` re-enqueues `(i, (url, tries + 1))`;
* `resp.status > 299` with `tries ≥ 5` gives up and enqueues `(i, b'')`;
* otherwise `(i, body)` is enqueued. -/
def downloadWorkerStep (i : Nat) (url : String) (tries : Nat)
    (outcome : FetchOutcome) : WorkerEffect :=
  match outcome with
  | .transportError => ⟨[], []⟩
  | .response status body =>
    if 299 < status then
      if tries < 5 then ⟨[(i, url, tries + 1)], []⟩
      else ⟨[], [(i, [])]⟩
    else ⟨[], [(i, body)]⟩

/-- Trajectory of a single fragment through successive fetch outcomes: while
each step re-enqueues the fragment into `_frag_urls`, the worker picks it up
again with the incremented try counter; the run ends with whatever the final
step put into `_frag_data` (nothing, if the outcome list ends while the
fragment is still queued or was dropped by a transport error). -/
def runFragment (i : Nat) (url : String) : Nat → List FetchOutcome → List (Nat × Bytes)
  | _, [] => []
  | tries, o :: rest =>
    let e := downloadWorkerStep i url tries o
    match e.urlQueuePut with
    | [(_, _, t)] => runFragment i url t rest
    | _ => e.dataQueuePut

/-! ## `HLSDownloader._fill_queue` (fc2_live_dl.py lines 121–152) -/

/-- The poller's loop state: the last fragment URL already enqueued and the
next sequence number `frag_idx` to assign. -/
structure PollerState where
  lastFragment : Option String
  fragIdx : Nat
deriving DecidableEq

/-- `new_idx = 1 + frags.index(last_fragment)`; when `last_fragment` is
`None` or absent from `frags`, `list.index` raises and the bare `except`
leaves `new_idx = 0`. -/
def newIdx (lastFragment : Option String) (frags : List String) : Nat :=
  match lastFragment with
  | none => 0
  | some f =>
    match frags.indexOf? f with
    | some idx => idx + 1
    | none => 0

/-- One poll iteration of `_fill_queue`: the entries of `frags` from
`new_idx` on are new; each is enqueued into `_frag_urls` as
`(frag_idx, (frag, 0))` with consecutive sequence numbers, `last_fragment`
is set to the last one enqueued (unchanged when there is none), and
`frag_idx` advances by the number of new fragments. -/
def pollStep (st : PollerState) (frags : List String) :
    PollerState × List (Nat × String × Nat) :=
  let newFrags := frags.drop (newIdx st.lastFragment frags)
  (⟨newFrags.getLast?.or st.lastFragment, st.fragIdx + newFrags.length⟩,
   (List.range' st.fragIdx newFrags.length).zip (newFrags.map (fun f => (f, 0))))

/-- All entries `_fill_queue` enqueues over a sequence of polls, each poll
being the fragment-URL list parsed by `_get_fragment_urls`. -/
def pollerRun (st : PollerState) : List (List String) → List (Nat × String × Nat)
  | [] => []
  | frags :: rest => (pollStep st frags).2 ++ pollerRun (pollStep st frags).1 rest

/-! ## `HLSDownloader._read` / `read` (fc2_live_dl.py lines 196–217) -/

/-- One `HLSDownloader._read(index)` call against the `_frag_data` priority
queue, modelled as a list sorted by sequence number whose head is what
`get()` returns.  When the head's sequence is `index` the entry is consumed
and its payload returned; otherwise the code puts the entry back, sleeps and
retries, which against an unchanging queue never makes progress — modelled
as `none`. -/
def readOne (index : Nat) : List (Nat × Bytes) → Option (Bytes × List (Nat × Bytes))
  | [] => none
  | (p, frag) :: rest => if p = index then some (frag, rest) else none

/-- `HLSDownloader.read`: yield `_read(0), _read(1), …` for `n` fragments,
threading the queue through the successive `_read` calls. -/
def readAll : Nat → Nat → List (Nat × Bytes) → Option (List Bytes)
  | 0, _, _ => some []
  | n + 1, index, q =>
    match readOne index q with
    | none => none
    | some (b, q1) => (readAll n (index + 1) q1).map (b :: ·)

/-! ## `FC2WebSocket._try_heartbeat` (fc2_live_dl.py lines 322–327) -/

/-- `FC2WebSocket.heartbeat_interval = 30` (seconds). -/
def heartbeat_interval : ℚ := 30

/-- `_try_heartbeat` at wall-clock time `t` with `_last_heartbeat = last`:
return early when `t - last < heartbeat_interval`, otherwise send a
heartbeat and set `_last_heartbeat := t` (the send is modelled as
instantaneous, so the recorded time equals the check time). -/
def tryHeartbeat (last t : ℚ) : Option ℚ × ℚ :=
  if t - last < heartbeat_interval then (none, last)
  else (some t, t)

/-- The heartbeat send times produced by `_main_loop`, which calls
`_try_heartbeat` after handling each received frame; the frames are handled
at the listed times and `last` is the initial `_last_heartbeat`
(`0` in `__init__`). -/
def heartbeatRun : ℚ → List ℚ → List ℚ
  | _, [] => []
  | last, t :: ts =>
    match tryHeartbeat last t with
    | (some s, last1) => s :: heartbeatRun last1 ts
    | (none, last1) => heartbeatRun last1 ts

/-! ## `FC2WebSocket._send_message` (fc2_live_dl.py lines 354–369; `_msg_id`
initialised to 0 at line 228) -/

/-- An outbound WebSocket message `{name, arguments, id}`. -/
structure OutMsg where
  name : String
  arguments : String
  id : Nat
deriving DecidableEq

/-- `_send_message`: increment `_msg_id`, emit the message carrying the new
id, and return that id as the new state. -/
def sendMessage (msgId : Nat) (name : String) (arguments : String) :
    Nat × OutMsg :=
  (msgId + 1, ⟨name, arguments, msgId + 1⟩)

/-- The messages produced by consecutive `_send_message` calls (requests and
heartbeats alike) starting from `_msg_id = msgId`. -/
def sendAll : Nat → List (String × String) → List OutMsg
  | _, [] => []
  | msgId, c :: cs =>
    (sendMessage msgId c.1 c.2).2 :: sendAll (sendMessage msgId c.1 c.2).1 cs

/-! ## Playlist selection (`FC2LiveDL`, fc2_live_dl.py lines 546–560,
754–805) -/

/-- A playlist entry `{url, mode}` of the HLS-information payload. -/
structure Playlist where
  url : String
  mode : Int
deriving DecidableEq

/-- The `arguments` of a `get_hls_information` response: each of the three
playlist keys may be present (`some`) or absent (`none`). -/
structure HLSInfo where
  playlists : Option (List Playlist)
  playlists_high_latency : Option (List Playlist)
  playlists_middle_latency : Option (List Playlist)
deriving DecidableEq

/-- `FC2LiveDL.STREAM_QUALITY`. -/
def STREAM_QUALITY : List (String × Int) :=
  [("150Kbps", 10), ("400Kbps", 20), ("1.2Mbps", 30), ("2Mbps", 40),
   ("3Mbps", 50), ("sound", 90)]

/-- `FC2LiveDL.STREAM_LATENCY`. -/
def STREAM_LATENCY : List (String × Int) :=
  [("low", 0), ("high", 1), ("mid", 2)]

/-- `FC2LiveDL._get_mode`: `STREAM_QUALITY[quality] + STREAM_LATENCY[latency]`
(`none` models the `KeyError` raised on an unrecognised name). -/
def getMode (quality latency : String) : Option Int := do
  let q ← STREAM_QUALITY.lookup quality
  let l ← STREAM_LATENCY.lookup latency
  pure (q + l)

/-- `FC2LiveDL._merge_playlists`: concatenate the lists of the keys
`playlists`, `playlists_high_latency`, `playlists_middle_latency` that are
present, in that order. -/
def mergePlaylists (info : HLSInfo) : List Playlist :=
  info.playlists.getD [] ++ info.playlists_high_latency.getD []
    ++ info.playlists_middle_latency.getD []

/-- The `key_map` of `FC2LiveDL._sort_playlists`: audio modes (`mode >= 90`)
are mapped to `mode - 90`, video modes to `mode` itself. -/
def keyMap (p : Playlist) : Int :=
  if 90 ≤ p.mode then p.mode - 90 else p.mode

/-- `FC2LiveDL._sort_playlists` is `sorted(merged, reverse=True,
key=key_map)`, a stable descending sort by `key_map`.  A stable sort is
extensionally determined by permutation, sortedness and stability, and
`List.insertionSort` with this total preorder has all three, so it is the
same function. -/
def sortPlaylists (l : List Playlist) : List Playlist :=
  l.insertionSort (fun a b => keyMap b ≤ keyMap a)

instance : IsTotal Playlist (fun a b => keyMap b ≤ keyMap a) :=
  ⟨fun a b => le_total (keyMap b) (keyMap a)⟩

instance : IsTrans Playlist (fun a b => keyMap b ≤ keyMap a) :=
  ⟨fun _ _ _ hab hbc => le_trans hbc hab⟩

/-- `FC2LiveDL._get_playlist_or_best`: scan the sorted list keeping the last
entry whose `mode` matches; when none matches, fall back to
`sorted_playlists[0]` with a warning (`none` models the `IndexError` this
indexing raises on an empty list). -/
def getPlaylistOrBest (sortedPlaylists : List Playlist) (mode : Int) :
    Option Playlist :=
  match sortedPlaylists.foldl
      (fun acc p => if p.mode = mode then some p else acc) none with
  | some p => some p
  | none => sortedPlaylists[0]?

/-- `FC2LiveDL._get_hls_url`, composed exactly as in the source. -/
def getHlsUrl (quality latency : String) (info : HLSInfo) : Option String := do
  let m ← getMode quality latency
  let p ← getPlaylistOrBest (sortPlaylists (mergePlaylists info)) m
  pure p.url

/-! ## `FC2WebSocket.get_hls_information` (fc2_live_dl.py lines 268–291) -/

/-- Outcome of one `_send_message_and_wait('get_hls_information',
timeout=5)`: either the 5-second timeout (`msg is None`) or a `_response_`
message whose `arguments` are the given payload. -/
inductive WsAttempt where
  | timeout
  | response (args : HLSInfo)
deriving DecidableEq

/-- The `'playlists' in msg['arguments']` membership test. -/
def hasPlaylistsKey (args : HLSInfo) : Bool := args.playlists.isSome

/-- The `while msg is None and tries < max_tries` loop of
`get_hls_information`, with `max_tries = 5`; `attempts k` is the outcome of
attempt `k`.  Returns the final `msg`, the final `tries`, and the backoff
sleeps performed (`2 ** tries` seconds, computed before the increment).
The structural `fuel` only bounds the recursion; starting from `fuel = 5`,
`tries = 0` it never runs out before the loop condition fails. -/
def getHlsLoop (attempts : Nat → WsAttempt) :
    Nat → Nat → Option HLSInfo → Option HLSInfo × Nat × List Nat
  | 0, tries, msg => (msg, tries, [])
  | fuel + 1, tries, msg =>
    if msg = none ∧ tries < 5 then
      match attempts tries with
      | .timeout =>
        let r := getHlsLoop attempts fuel (tries + 1) none
        (r.1, r.2.1, 2 ^ tries :: r.2.2)
      | .response args =>
        if hasPlaylistsKey args then
          getHlsLoop attempts fuel (tries + 1) (some args)
        else
          let r := getHlsLoop attempts fuel (tries + 1) none
          (r.1, r.2.1, 2 ^ tries :: r.2.2)
    else (msg, tries, [])

/-- Result of `get_hls_information`: the returned `msg['arguments']`, the
raised `EmptyPlaylistException`, or the `TypeError` of subscripting
`msg['arguments']` with `msg = None` (unreachable: the loop can only exit
with `msg = None` once `tries = 5`). -/
inductive HlsInfoResult where
  | success (args : HLSInfo)
  | emptyPlaylistException
  | subscriptNone
deriving DecidableEq

/-- `get_hls_information`: run the retry loop, then
`if tries == max_tries: raise EmptyPlaylistException`, else return
`msg['arguments']`.  The second component is the backoff sleeps
performed. -/
def getHlsInformation (attempts : Nat → WsAttempt) :
    HlsInfoResult × List Nat :=
  let r := getHlsLoop attempts 5 0 none
  if r.2.1 = 5 then (.emptyPlaylistException, r.2.2)
  else
    match r.1 with
    | some args => (.success args, r.2.2)
    | none => (.subscriptNone, r.2.2)

end FC2

/-! ## Helper lemmas -/

/-- The sequence numbers `_fill_queue` assigns, across any run, are the
consecutive integers starting at the initial `frag_idx`. -/
theorem pollerRun_map_fst (polls : List (List String)) :
    ∀ (lf : Option String) (k : Nat),
      (FC2.pollerRun ⟨lf, k⟩ polls).map Prod.fst =
        List.range' k (FC2.pollerRun ⟨lf, k⟩ polls).length := by
  induction polls with
  | nil => intro lf k; rfl
  | cons frags rest ih =>
    intro lf k
    simp only [FC2.pollerRun, FC2.pollStep, List.map_append, List.length_append]
    rw [ih, List.map_fst_zip]
    · rw [List.length_zip, List.length_range', List.length_map, Nat.min_self]
      have happ := List.range'_append k (frags.drop (FC2.newIdx lf frags)).length
        (FC2.pollerRun ⟨((frags.drop (FC2.newIdx lf frags)).getLast?).or lf,
          k + (frags.drop (FC2.newIdx lf frags)).length⟩ rest).length 1
      rw [Nat.one_mul] at happ
      rw [happ, Nat.add_comm]
    · simp [List.length_range']

/-- `read` against a queue holding exactly the sequences
`index, index+1, …, index+n-1` (in queue order, i.e. sorted) yields all the
payloads in sequence order. -/
theorem readAll_of_range (n : Nat) :
    ∀ (index : Nat) (q : List (Nat × FC2.Bytes)),
      q.map Prod.fst = List.range' index n →
      FC2.readAll n index q = some (q.map Prod.snd) := by
  induction n with
  | zero =>
    intro index q hq
    have hq0 : q = [] := by
      cases q with
      | nil => rfl
      | cons a l => simp [List.range'] at hq
    subst hq0; rfl
  | succ n ih =>
    intro index q hq
    cases q with
    | nil => simp [List.range'] at hq
    | cons a l =>
      obtain ⟨p, b⟩ := a
      have hr : List.range' index (n + 1) = index :: List.range' (index + 1) n := rfl
      rw [hr] at hq
      simp only [List.map_cons, List.cons.injEq] at hq
      obtain ⟨hp, hl⟩ := hq
      subst hp
      simp only [FC2.readAll, FC2.readOne, if_pos]
      rw [ih (p + 1) l hl]
      rfl

/-- Claim C6: `_get_fragment_urls` raises `StreamFinished` exactly when the
playlist GET returns HTTP 403; for any other status it returns the body split
by newline with lines that are empty or begin with `'#'` discarded and the
remaining lines stripped of surrounding whitespace, in their original order
(the spec-side reading `specFragmentUrls` coincides with the code). -/
theorem c6_fragment_urls (status : Nat) (body : String) :
    FC2.getFragmentUrls status body =
      if status = 403 then FC2.FragResult.streamFinished
      else FC2.FragResult.urls (FC2.specFragmentUrls body) := by
  unfold FC2.getFragmentUrls FC2.specFragmentUrls
  by_cases h : status = 403
  · simp [h]
  · simp only [h, if_false]
    congr 1
    induction body.splitOn "\n" with
    | nil => rfl
    | cons l ls ih =>
      by_cases hempty : l = ""
      · subst hempty
        simpa using ih
      · have hlen : 0 < l.length := by
          rcases Nat.eq_zero_or_pos l.length with h0 | h0
          · exact absurd (String.ext (List.length_eq_zero.mp h0)) hempty
          · exact h0
        by_cases hhash : l.front = '#'
        · simp [List.filter_cons, List.filterMap_cons, hempty, hhash, hlen, ih]
        · simp [List.filter_cons, List.filterMap_cons, hempty, hhash, hlen, ih]

/-- Claim C7: A transport error (an exception rather than an HTTP status) makes
the worker log and enqueue nothing: the fragment is neither re-enqueued into
the URL queue nor substituted in the data queue. -/
theorem c7_transport_error_drops (i : Nat) (url : String) (tries : Nat) :
    FC2.downloadWorkerStep i url tries FC2.FetchOutcome.transportError =
      ⟨[], []⟩ :=
  rfl

/-- Claim C3, counterexample: A fragment whose GET returns HTTP 500 exactly five
times has still put nothing into the data queue — after the fifth error it is
merely re-enqueued with `tries = 5` — so the claim "an HTTP error status five
times makes the worker enqueue `(sequence, empty bytes)`" is false. -/
theorem c3_counterexample :
    FC2.runFragment 0 "http://frag" 0
        (List.replicate 5 (FC2.FetchOutcome.response 500 [])) = [] := by
  decide

/-- Claim C3 as amended: On an error status with the try counter below the budget
the fragment is re-enqueued with `tries + 1`; the empty-bytes substitute
`(i, b'')` is enqueued only on the sixth consecutive error status (when
`tries` has reached 5). -/
theorem c3_retry_then_give_up (i : Nat) (url : String) (s : Nat) (b : FC2.Bytes)
    (hs : 299 < s) :
    (∀ tries, tries < 5 →
        FC2.downloadWorkerStep i url tries (FC2.FetchOutcome.response s b) =
          ⟨[(i, url, tries + 1)], []⟩) ∧
      FC2.runFragment i url 0
          (List.replicate 6 (FC2.FetchOutcome.response s b)) = [(i, [])] := by
  constructor
  · intro tries htries
    simp [FC2.downloadWorkerStep, hs, htries]
  · simp [List.replicate, FC2.runFragment, FC2.downloadWorkerStep, hs]

/-- Witness for `c3_retry_then_give_up` at `i = 7`, `url = "u"`, status 500. -/
theorem c3_retry_then_give_up_witness :
    (∀ tries, tries < 5 →
        FC2.downloadWorkerStep 7 "u" tries (FC2.FetchOutcome.response 500 [3]) =
          ⟨[(7, "u", tries + 1)], []⟩) ∧
      FC2.runFragment 7 "u" 0
          (List.replicate 6 (FC2.FetchOutcome.response 500 [3])) = [(7, [])] :=
  c3_retry_then_give_up 7 "u" 500 [3] (by decide)

/-- Claim C1: The playlist poller assigns sequence numbers starting at 0 and
increasing by 1 (left conjunct: across any run from the initial state, the
enqueued sequence numbers are exactly `0, 1, 2, …`), and the consumer
`HLSDownloader.read` yields exactly one byte payload for each enqueued
sequence `k`, in increasing order of `k` — given a data queue holding one
entry per sequence (an entry may be the empty-bytes substitute), `read`
yields every payload once, in sequence order, skipping none. -/
theorem c1_sequence_integrity (polls : List (List String))
    (q : List (Nat × FC2.Bytes)) (n : Nat) :
    (FC2.pollerRun ⟨none, 0⟩ polls).map Prod.fst =
        List.range (FC2.pollerRun ⟨none, 0⟩ polls).length
    ∧ (q.map Prod.fst = List.range n →
        FC2.readAll n 0 q = some (q.map Prod.snd)) := by
  constructor
  · rw [List.range_eq_range']
    exact pollerRun_map_fst polls none 0
  · intro hq
    refine readAll_of_range n 0 q ?_
    rw [← List.range_eq_range']
    exact hq

/-- Witness for `c1_sequence_integrity`: two polls with an overlapping
window enqueue sequences `0, 1, 2`, and a three-entry data queue (sequence 1
carrying the empty-bytes substitute) is read back in order. -/
theorem c1_sequence_integrity_witness :
    ((FC2.pollerRun ⟨none, 0⟩ [["a", "b"], ["b", "c"]]).map Prod.fst =
        List.range (FC2.pollerRun ⟨none, 0⟩ [["a", "b"], ["b", "c"]]).length)
    ∧ FC2.readAll 3 0 [(0, [1]), (1, []), (2, [7])] =
        some (([(0, [1]), (1, []), (2, [7])] : List (Nat × FC2.Bytes)).map
          Prod.snd) :=
  ⟨(c1_sequence_integrity [["a", "b"], ["b", "c"]]
      [(0, [1]), (1, []), (2, [7])] 3).1,
   (c1_sequence_integrity [["a", "b"], ["b", "c"]]
      [(0, [1]), (1, []), (2, [7])] 3).2 (by decide)⟩

/-- Every heartbeat sent from state `last` happens no earlier than
`last + heartbeat_interval`. -/
theorem heartbeatRun_mem_lower (ts : List ℚ) :
    ∀ (last x : ℚ), x ∈ FC2.heartbeatRun last ts →
      last + FC2.heartbeat_interval ≤ x := by
  induction ts with
  | nil => intro last x hx; simp [FC2.heartbeatRun] at hx
  | cons t ts ih =>
    intro last x hx
    by_cases h : t - last < FC2.heartbeat_interval
    · simp only [FC2.heartbeatRun, FC2.tryHeartbeat, if_pos h] at hx
      exact ih last x hx
    · simp only [FC2.heartbeatRun, FC2.tryHeartbeat, if_neg h,
        List.mem_cons] at hx
      have hle : last + FC2.heartbeat_interval ≤ t := by
        have := not_lt.mp h
        linarith
      rcases hx with rfl | hx
      · exact hle
      · have hpos : (0 : ℚ) ≤ FC2.heartbeat_interval := by
          norm_num [FC2.heartbeat_interval]
        have := ih t x hx
        linarith

/-- Consecutive heartbeat sends are at least `heartbeat_interval` apart. -/
theorem heartbeatRun_chain (ts : List ℚ) :
    ∀ last : ℚ, List.Chain' (fun a b => a + FC2.heartbeat_interval ≤ b)
      (FC2.heartbeatRun last ts) := by
  induction ts with
  | nil => intro last; simp [FC2.heartbeatRun]
  | cons t ts ih =>
    intro last
    by_cases h : t - last < FC2.heartbeat_interval
    · simpa only [FC2.heartbeatRun, FC2.tryHeartbeat, if_pos h] using ih last
    · simp only [FC2.heartbeatRun, FC2.tryHeartbeat, if_neg h]
      rw [List.chain'_cons']
      exact ⟨fun y hy => heartbeatRun_mem_lower ts t y (List.mem_of_mem_head? hy),
        ih t⟩

/-- Claim C8: After handling a frame at time `t`, `_try_heartbeat` sends a
heartbeat if and only if at least `heartbeat_interval` (30 s) has elapsed
since `_last_heartbeat`; consequently, over any session trace the
consecutive heartbeat send times are at least the heartbeat interval
apart. -/
theorem c8_heartbeat_cadence (last t : ℚ) (ts : List ℚ) :
    ((FC2.tryHeartbeat last t).1.isSome = true ↔
        FC2.heartbeat_interval ≤ t - last)
    ∧ List.Chain' (fun a b => a + FC2.heartbeat_interval ≤ b)
        (FC2.heartbeatRun last ts) := by
  constructor
  · unfold FC2.tryHeartbeat
    by_cases h : t - last < FC2.heartbeat_interval
    · rw [if_pos h]
      simpa using not_le.mpr h
    · rw [if_neg h]
      simpa using not_lt.mp h
  · exact heartbeatRun_chain ts last

/-- The ids emitted by consecutive `_send_message` calls from `_msg_id = m`
are `m + 1, m + 2, …`. -/
theorem sendAll_map_id (cs : List (String × String)) :
    ∀ msgId : Nat, (FC2.sendAll msgId cs).map FC2.OutMsg.id =
      List.range' (msgId + 1) cs.length := by
  induction cs with
  | nil => intro msgId; rfl
  | cons c cs ih =>
    intro msgId
    simp only [FC2.sendAll, FC2.sendMessage, List.map_cons]
    rw [ih]
    rfl

/-- Claim C9: Over one connection (ids start from `_msg_id = 0`), the ids
carried by the outbound messages — requests and heartbeats alike — are
exactly `1, 2, …, n` and hence strictly increase, beginning at 1 for the
first message sent. -/
theorem c9_message_ids (cs : List (String × String)) :
    (FC2.sendAll 0 cs).map FC2.OutMsg.id = List.range' 1 cs.length
    ∧ List.Chain' (fun a b => a < b) ((FC2.sendAll 0 cs).map FC2.OutMsg.id) := by
  have h := sendAll_map_id cs 0
  refine ⟨h, ?_⟩
  rw [h]
  exact (List.pairwise_lt_range' 1 cs.length).chain'

/-- If the last-match scan of `_get_playlist_or_best` produces an entry,
that entry either came from the list (and has the requested mode) or was
the initial accumulator. -/
theorem foldl_lastMatch_some (m : Int) :
    ∀ (l : List FC2.Playlist) (acc : Option FC2.Playlist) (p : FC2.Playlist),
      l.foldl (fun acc1 q => if q.mode = m then some q else acc1) acc = some p →
      (p ∈ l ∧ p.mode = m) ∨ acc = some p := by
  intro l
  induction l with
  | nil => intro acc p h; exact Or.inr h
  | cons x xs ih =>
    intro acc p h
    simp only [List.foldl_cons] at h
    rcases ih _ p h with ⟨hmem, hmode⟩ | hacc
    · exact Or.inl ⟨List.mem_cons_of_mem x hmem, hmode⟩
    · by_cases hx : x.mode = m
      · rw [if_pos hx] at hacc
        obtain rfl : x = p := Option.some.inj hacc
        exact Or.inl ⟨List.mem_cons_self x xs, hx⟩
      · rw [if_neg hx] at hacc
        exact Or.inr hacc

/-- When no entry has the requested mode, the last-match scan leaves the
accumulator unchanged. -/
theorem foldl_lastMatch_of_no_match (m : Int) :
    ∀ (l : List FC2.Playlist) (acc : Option FC2.Playlist),
      (∀ p ∈ l, p.mode ≠ m) →
      l.foldl (fun acc1 q => if q.mode = m then some q else acc1) acc = acc := by
  intro l
  induction l with
  | nil => intro acc _; rfl
  | cons x xs ih =>
    intro acc h
    simp only [List.foldl_cons]
    rw [if_neg (h x (List.mem_cons_self x xs))]
    exact ih acc (fun p hp => h p (List.mem_cons_of_mem x hp))

/-- The last-match scan never forgets an already-found entry. -/
theorem foldl_lastMatch_isSome_mono (m : Int) :
    ∀ (l : List FC2.Playlist) (acc : Option FC2.Playlist),
      acc.isSome →
      (l.foldl (fun acc1 q => if q.mode = m then some q else acc1) acc).isSome := by
  intro l
  induction l with
  | nil => intro acc h; exact h
  | cons x xs ih =>
    intro acc h
    simp only [List.foldl_cons]
    by_cases hx : x.mode = m
    · exact ih _ (by rw [if_pos hx]; rfl)
    · exact ih _ (by rw [if_neg hx]; exact h)

/-- When some entry has the requested mode, the last-match scan finds
one. -/
theorem foldl_lastMatch_isSome_of_match (m : Int) :
    ∀ (l : List FC2.Playlist) (acc : Option FC2.Playlist),
      (∃ p ∈ l, p.mode = m) →
      (l.foldl (fun acc1 q => if q.mode = m then some q else acc1) acc).isSome := by
  intro l
  induction l with
  | nil =>
    intro acc h
    obtain ⟨p, hp, _⟩ := h
    exact absurd hp (List.not_mem_nil p)
  | cons x xs ih =>
    intro acc h
    obtain ⟨p, hp, hpm⟩ := h
    simp only [List.foldl_cons]
    rcases List.mem_cons.mp hp with rfl | hmem
    · exact foldl_lastMatch_isSome_mono m xs _ (by rw [if_pos hpm]; rfl)
    · exact ih _ ⟨p, hmem, hpm⟩

/-- Claim C4: whenever the merged playlists contain an entry whose mode is
the session target `STREAM_QUALITY[quality] + STREAM_LATENCY[latency]`, the
URL `_get_hls_url` picks belongs to an entry with exactly that mode; when no
entry has the target mode, `_get_playlist_or_best` falls back to the
top-ranked entry of the sorted merged list. -/
theorem c4_mode_selection (quality latency : String) (info : FC2.HLSInfo)
    (m : Int) (hm : FC2.getMode quality latency = some m) :
    ((∃ p ∈ FC2.mergePlaylists info, p.mode = m) →
        ∃ p ∈ FC2.mergePlaylists info, p.mode = m ∧
          FC2.getHlsUrl quality latency info = some p.url)
    ∧ ((∀ p ∈ FC2.mergePlaylists info, p.mode ≠ m) →
        FC2.getPlaylistOrBest (FC2.sortPlaylists (FC2.mergePlaylists info)) m =
          (FC2.sortPlaylists (FC2.mergePlaylists info))[0]?) := by
  have hperm := List.perm_insertionSort
    (fun a b : FC2.Playlist => FC2.keyMap b ≤ FC2.keyMap a)
    (FC2.mergePlaylists info)
  constructor
  · rintro ⟨p0, hp0, hp0m⟩
    have hex : ∃ p ∈ FC2.sortPlaylists (FC2.mergePlaylists info), p.mode = m :=
      ⟨p0, hperm.mem_iff.mpr hp0, hp0m⟩
    have hsome := foldl_lastMatch_isSome_of_match m
      (FC2.sortPlaylists (FC2.mergePlaylists info)) none hex
    obtain ⟨p, hp⟩ := Option.isSome_iff_exists.mp hsome
    rcases foldl_lastMatch_some m _ none p hp with ⟨hmem, hmode⟩ | habs
    · refine ⟨p, hperm.mem_iff.mp hmem, hmode, ?_⟩
      simp [FC2.getHlsUrl, hm, FC2.getPlaylistOrBest, hp]
    · exact Option.noConfusion habs
  · intro hnone
    have hall : ∀ p ∈ FC2.sortPlaylists (FC2.mergePlaylists info), p.mode ≠ m :=
      fun p hp => hnone p (hperm.mem_iff.mp hp)
    unfold FC2.getPlaylistOrBest
    rw [foldl_lastMatch_of_no_match m _ none hall]

/-- Witness for `c4_mode_selection`: quality `3Mbps`, latency `mid`
(target mode 52) against `playlists = [{url: A, mode: 52},
{url: B, mode: 40}]` selects the mode-52 entry. -/
theorem c4_mode_selection_witness :
    ∃ p ∈ FC2.mergePlaylists ⟨some [⟨"A", 52⟩, ⟨"B", 40⟩], none, none⟩,
      p.mode = 52 ∧
        FC2.getHlsUrl "3Mbps" "mid"
          ⟨some [⟨"A", 52⟩, ⟨"B", 40⟩], none, none⟩ = some p.url :=
  (c4_mode_selection "3Mbps" "mid" ⟨some [⟨"A", 52⟩, ⟨"B", 40⟩], none, none⟩
      52 (by decide)).1 (by decide)

/-- Claim C5, counterexample: `_sort_playlists` does not rank every audio
entry (`mode >= 90`) below every non-audio entry regardless of the numeric
mode values: an audio entry of mode 92 (sort key 2) is ranked above a
non-audio entry of mode 1 (sort key 1). -/
theorem c5_counterexample :
    FC2.sortPlaylists [⟨"audio", 92⟩, ⟨"video", 1⟩] =
        [⟨"audio", 92⟩, ⟨"video", 1⟩]
    ∧ (90 : Int) ≤ (FC2.Playlist.mk "audio" 92).mode
    ∧ (FC2.Playlist.mk "video" 1).mode < 90 := by
  refine ⟨by decide, by decide, by decide⟩

/-- Claim C5 as amended: for entries whose modes lie in the service's actual
vocabulary — audio modes in `[90, 92]`, non-audio modes at least 3 — every
audio entry is ranked below every non-audio entry, and within each group
entries are ordered by descending mode. -/
theorem c5_sort_ranks (l : List FC2.Playlist)
    (hl : ∀ p ∈ l, (90 ≤ p.mode → p.mode ≤ 92) ∧ (p.mode < 90 → 3 ≤ p.mode)) :
    List.Pairwise
      (fun a b : FC2.Playlist =>
        (90 ≤ a.mode → 90 ≤ b.mode) ∧
        ((90 ≤ a.mode ↔ 90 ≤ b.mode) → b.mode ≤ a.mode))
      (FC2.sortPlaylists l) := by
  have hperm := List.perm_insertionSort
    (fun a b : FC2.Playlist => FC2.keyMap b ≤ FC2.keyMap a) l
  have hsorted : List.Pairwise
      (fun a b : FC2.Playlist => FC2.keyMap b ≤ FC2.keyMap a)
      (FC2.sortPlaylists l) :=
    List.sorted_insertionSort
      (fun a b : FC2.Playlist => FC2.keyMap b ≤ FC2.keyMap a) l
  refine hsorted.imp_of_mem ?_
  intro a b ha hb hr
  obtain ⟨ha1, ha2⟩ := hl a (hperm.mem_iff.mp ha)
  obtain ⟨hb1, hb2⟩ := hl b (hperm.mem_iff.mp hb)
  simp only [FC2.keyMap] at hr
  split_ifs at hr with h1 h2 h3 <;> constructor <;> intro hc <;> omega

/-- Witness for `c5_sort_ranks` on
`[{mode 52}, {sound, mode 90}, {mode 40}]`. -/
theorem c5_sort_ranks_witness :
    (∀ p ∈ ([⟨"a", 52⟩, ⟨"s", 90⟩, ⟨"b", 40⟩] : List FC2.Playlist),
        (90 ≤ p.mode → p.mode ≤ 92) ∧ (p.mode < 90 → 3 ≤ p.mode))
    ∧ List.Pairwise
        (fun a b : FC2.Playlist =>
          (90 ≤ a.mode → 90 ≤ b.mode) ∧
          ((90 ≤ a.mode ↔ 90 ≤ b.mode) → b.mode ≤ a.mode))
        (FC2.sortPlaylists [⟨"a", 52⟩, ⟨"s", 90⟩, ⟨"b", 40⟩]) :=
  ⟨by decide, c5_sort_ranks [⟨"a", 52⟩, ⟨"s", 90⟩, ⟨"b", 40⟩] (by decide)⟩

/-- Claim C2 (code bug): when the first four attempts time out and the
fifth returns a response carrying a `playlists` key, `get_hls_information`
still raises `EmptyPlaylistException`, because the `tries == max_tries`
check cannot tell a fifth failure from a fifth success (first conjunct) —
the claim says the response's arguments are returned.  The remaining
conjuncts document the surrounding behaviour the claim describes correctly:
a response with a `playlists` key on an earlier attempt is returned, and
five failed attempts back off `2 ** attempt` seconds each and end in
`EmptyPlaylistException`. -/
theorem c2_fifth_attempt_success_raises :
    (FC2.getHlsInformation
        (fun k => if k = 4 then FC2.WsAttempt.response ⟨some [⟨"A", 52⟩], none, none⟩
          else FC2.WsAttempt.timeout)).1 =
      FC2.HlsInfoResult.emptyPlaylistException
    ∧ FC2.hasPlaylistsKey ⟨some [⟨"A", 52⟩], none, none⟩ = true
    ∧ (FC2.getHlsInformation
        (fun _ => FC2.WsAttempt.response ⟨some [⟨"A", 52⟩], none, none⟩)).1 =
      FC2.HlsInfoResult.success ⟨some [⟨"A", 52⟩], none, none⟩
    ∧ FC2.getHlsInformation (fun _ => FC2.WsAttempt.timeout) =
      (FC2.HlsInfoResult.emptyPlaylistException, [1, 2, 4, 8, 16]) := by
  refine ⟨by decide, by decide, by decide, by decide⟩

/-- Claim C10: a response whose arguments merely contain a `playlists` key
is accepted by `get_hls_information` even when all three playlist lists are
empty; the merged list is then empty and `_get_playlist_or_best` reaches
`sorted_playlists[0]`, an out-of-bounds index access (modelled `none`)
rather than `EmptyPlaylistException`. -/
theorem c10_empty_lists_index_error :
    FC2.hasPlaylistsKey ⟨some [], some [], some []⟩ = true
    ∧ (FC2.getHlsInformation
        (fun _ => FC2.WsAttempt.response ⟨some [], some [], some []⟩)).1 =
      FC2.HlsInfoResult.success ⟨some [], some [], some []⟩
    ∧ FC2.mergePlaylists ⟨some [], some [], some []⟩ = []
    ∧ (∀ m : Int,
        FC2.getPlaylistOrBest
          (FC2.sortPlaylists (FC2.mergePlaylists ⟨some [], some [], some []⟩))
          m = none)
    ∧ FC2.getHlsUrl "3Mbps" "mid" ⟨some [], some [], some []⟩ = none := by
  refine ⟨rfl, by decide, rfl, fun m => rfl, rfl⟩
